import Mathlib

/-!
Verification of `src/code/bedrock_dynamic_cross_region_routing.py`.

The development shallowly embeds the region registry, the availability
filter (`get_validate_regions_from_conf`), the quarantine merge
(`disable_region_in_conf`), the nested retry loop
(`bedrock_invoke_model_message_with_retry`) and the locked file writer
(`write_json_to_file_with_lock`), and proves the spec's claims about them.
-/

/-- Embeds one record of the `bedrock_endpoints.conf` registry: a JSON object
with exactly a string `region` and an integer `next_available_time`
(epoch seconds), as read by the source via `json.loads` (line 176) and
consumed at lines 54-55 and 133-134. -/
structure RegionEntry where
  region : String
  next_available_time : Int
deriving Repr, DecidableEq

/-- Embeds the global configuration constant `MAX_RETRY_TIME = 5` (line 21). -/
def MAX_RETRY_TIME : Nat := 5

/-- Embeds the global configuration constant `NEXT_RETRY_TIME_WINDOW = 3600`
(line 22). -/
def NEXT_RETRY_TIME_WINDOW : Int := 3600

/-- Embeds the global configuration constant `MULTI_REGION_RETRY = True`
(line 23). -/
def MULTI_REGION_RETRY : Bool := true

/-- Embeds the global configuration constant
`MAX_RETRY_TIMES_FOR_EACH_REGION = 2` (line 24). -/
def MAX_RETRY_TIMES_FOR_EACH_REGION : Nat := 2

/-- Embeds lines 29-32: when `MULTI_REGION_RETRY` is false the source
overwrites `MAX_RETRY_TIMES_FOR_EACH_REGION` with `MAX_RETRY_TIME`, so the
effective per-region budget equals the global budget; when it is true the
configured per-region value is kept. -/
def effective_max_retry_times_for_each_region (multi_region_retry : Bool)
    (max_retry_time configured_per_region : Nat) : Nat :=
  if multi_region_retry then configured_per_region else max_retry_time

/-- Embeds `get_validate_regions_from_conf` (lines 41-57): walk the registry
in order and append `regional_conf['region']` whenever
`regional_conf['next_available_time'] <= current_time`.  The source reads the
module-level `current_time` (captured once at line 167); here it is the
explicit second argument. -/
def get_validate_regions_from_conf : List RegionEntry → Int → List String
  | [], _ => []
  | regional_conf :: rest, current_time =>
    if regional_conf.next_available_time ≤ current_time then
      regional_conf.region :: get_validate_regions_from_conf rest current_time
    else
      get_validate_regions_from_conf rest current_time

/-- Embeds the loop body of `disable_region_in_conf` (lines 132-136) on the
value level: each entry whose `region` is in `disable_regions` gets
`next_available_time := next_timestamp`, the others are kept; order is kept.
(The reference/mutation behaviour of the same lines is modelled separately by
`disable_region_in_conf_inplace`.) -/
def disableLoop : List RegionEntry → List String → Int → List RegionEntry
  | [], _, _ => []
  | region_data :: rest, disable_regions, next_timestamp =>
    (if region_data.region ∈ disable_regions then
      { region_data with next_available_time := next_timestamp }
    else region_data) :: disableLoop rest disable_regions next_timestamp

/-- Embeds `disable_region_in_conf` (lines 118-136): computes
`next_timestamp = current_time + NEXT_RETRY_TIME_WINDOW` (line 127, with the
cooldown window passed explicitly here) and sets it on every entry whose
region is in `disable_regions`.  The source's unused local `disable_count`
(line 130) has no observable effect and is omitted. -/
def disable_region_in_conf (raw_region_configs : List RegionEntry)
    (disable_regions : List String) (current_time window : Int) :
    List RegionEntry :=
  disableLoop raw_region_configs disable_regions (current_time + window)

/-- Embeds the mutable state the retry loop of lines 60-115 threads along:
the `retry_time` counter (line 74), the process-global `failed_regions` list
(line 27, appended at lines 97 and 106), and — as ghost instrumentation — the
ordered list of regions the Bedrock invoker has been called against
(one entry per execution of line 91). -/
structure RetryState where
  retry_time : Nat
  failed : List String
  trace : List String
deriving Repr, DecidableEq

/-- Embeds the inner `for one_region_retry_time in range(MAX_RETRY_TIMES_FOR_EACH_REGION)`
loop (lines 85-111).  `fuel` is the number of remaining range iterations and
`i` the current `one_region_retry_time` value.  Each iteration first checks
`retry_time < max_retry_time` (line 88, `break` otherwise, line 111), then
calls the invoker (line 91).  A truthy response returns immediately
(lines 93-94); a falsy response (lines 95-100) and an exception
(lines 102-109) behave identically: on the region's first attempt
(`one_region_retry_time == 0`) the region is appended to `failed_regions`
(lines 96-97 and 105-106), and `retry_time` is incremented (lines 99, 108).
The invoker abstracts `bedrock.invoke_model` with `request_data`/`model_id`
already applied; its `Nat` argument is the global call index (number of
invoker calls already made in this engine call), and `none` covers both the
falsy-response and the exception case. -/
def one_region_retry (invoke : String → Nat → Option Nat)
    (max_retry_time : Nat) (region_name : String) :
    Nat → Nat → RetryState → RetryState × Option Nat
  | 0, _, st => (st, none)
  | fuel + 1, i, st =>
    if st.retry_time < max_retry_time then
      match invoke region_name st.trace.length with
      | some response => ({ st with trace := st.trace ++ [region_name] }, some response)
      | none =>
        one_region_retry invoke max_retry_time region_name fuel (i + 1)
          { retry_time := st.retry_time + 1,
            failed := if i = 0 then st.failed ++ [region_name] else st.failed,
            trace := st.trace ++ [region_name] }
    else (st, none)

/-- Embeds the outer `for region_name in validate_regions` loop
(lines 80-113).  Before each region the source checks
`region_name is not None and retry_time < max_retry_time` (line 82) and
`break`s otherwise (line 113); regions are strings coming from the filtered
registry, so the `is not None` conjunct is always true and only the budget
check remains.  The `boto3.client` construction (line 83) has no observable
effect in this model.  `maxPerRegion` is the module global
`MAX_RETRY_TIMES_FOR_EACH_REGION` the inner `range` reads at line 85. -/
def region_retry_loop (invoke : String → Nat → Option Nat)
    (max_retry_time maxPerRegion : Nat) :
    List String → RetryState → RetryState × Option Nat
  | [], st => (st, none)
  | region_name :: rest, st =>
    if st.retry_time < max_retry_time then
      match one_region_retry invoke max_retry_time region_name maxPerRegion 0 st with
      | (st1, some response) => (st1, some response)
      | (st1, none) => region_retry_loop invoke max_retry_time maxPerRegion rest st1
    else (st, none)

/-- Embeds `bedrock_invoke_model_message_with_retry` (lines 60-115): an empty
`validate_regions` returns `False` immediately (lines 71-72, `none` here)
without calling the invoker, otherwise `retry_time` starts at 0 (line 74) and
the nested loops run; falling out of the outer loop returns `False`
(line 115).  `failed_regions` is the content of the process-global list
(line 27) when the call starts; the returned state carries its content when
the call returns. -/
def bedrock_invoke_model_message_with_retry (invoke : String → Nat → Option Nat)
    (validate_regions : List String) (max_retry_time maxPerRegion : Nat)
    (failed_regions : List String) : RetryState × Option Nat :=
  if validate_regions.length = 0 then
    ({ retry_time := 0, failed := failed_regions, trace := [] }, none)
  else
    region_retry_loop invoke max_retry_time maxPerRegion validate_regions
      { retry_time := 0, failed := failed_regions, trace := [] }

/-- Invoker that never returns a valid response (every attempt fails, by
falsy response or exception). -/
def alwaysFailInvoker : String → Nat → Option Nat := fun _ _ => none

/-- Counts 1 for a successful invoker result and 0 for a failure; a successful
call is the only one that does not increment `retry_time`. -/
def oneIf (res : Option Nat) : Nat :=
  if res.isSome then 1 else 0

/-- Calls of a call trace that were failures: every call except the final one
is a failure (a success returns immediately), and the final one is a failure
exactly when the engine returned `False`. -/
def failedCallsOf (trace : List String) (res : Option Nat) : List String :=
  match res with
  | some _ => trace.dropLast
  | none => trace

lemma failedCallsOf_append_left (l : List String) (trace : List String)
    (res : Option Nat) (h : res.isSome = true → trace ≠ []) :
    failedCallsOf (l ++ trace) res = l ++ failedCallsOf trace res := by
  cases res with
  | none => rfl
  | some r =>
    simp only [failedCallsOf]
    exact List.dropLast_append_of_ne_nil l (h rfl)

/-- Behaviour of one run of the inner per-region loop, entered at an
arbitrary iteration index `i` with `fuel` iterations left: it calls the
invoker against `region_name` some `k ≤ fuel` times, appends those calls to
the trace, appends `region_name` to the failed list exactly when `i = 0` and
at least one of the calls failed, and accounts `retry_time` for every call
except a final success. -/
lemma one_region_retry_spec (invoke : String → Nat → Option Nat)
    (max_retry_time : Nat) (region_name : String) :
    ∀ (fuel i : Nat) (st st' : RetryState) (res : Option Nat),
      one_region_retry invoke max_retry_time region_name fuel i st = (st', res) →
      ∃ k,
        st'.trace = st.trace ++ List.replicate k region_name ∧
        k ≤ fuel ∧
        st'.failed = st.failed ++
          (if i = 0 ∧ 1 ≤ k - oneIf res then [region_name] else []) ∧
        st'.retry_time + oneIf res = st.retry_time + k ∧
        (res.isSome = true → 1 ≤ k ∧ st'.retry_time < max_retry_time) ∧
        (st'.retry_time ≤ max_retry_time ∨ st'.retry_time = st.retry_time) ∧
        (st.retry_time < max_retry_time → 1 ≤ fuel → 1 ≤ k) := by
  intro fuel
  induction fuel with
  | zero =>
    intro i st st' res h
    simp only [one_region_retry] at h
    injection h with h1 h2
    subst h1; subst h2
    exact ⟨0, by simp [oneIf]⟩
  | succ fuel ih =>
    intro i st st' res h
    rw [one_region_retry] at h
    by_cases hrt : st.retry_time < max_retry_time
    · rw [if_pos hrt] at h
      cases hinv : invoke region_name st.trace.length with
      | some response =>
        rw [hinv] at h
        injection h with h1 h2
        subst h1; subst h2
        refine ⟨1, by simp, by omega, by simp [oneIf], by simp [oneIf], ?_, ?_, by omega⟩
        · intro _; exact ⟨le_refl 1, hrt⟩
        · right; rfl
      | none =>
        rw [hinv] at h
        obtain ⟨k', htr, hk, hfail, hret, hsome, hbound, hcall⟩ :=
          ih (i + 1) _ st' res h
        refine ⟨k' + 1, ?_, by omega, ?_, ?_, ?_, ?_, by omega⟩
        · rw [htr]
          simp [List.replicate_succ, List.append_assoc]
        · rw [hfail]
          simp only [Nat.add_eq_zero, one_ne_zero, and_false, false_and, if_false,
            List.append_nil]
          have hcond : (1 ≤ k' + 1 - oneIf res) := by
            cases res with
            | none => simp [oneIf]
            | some r => have := (hsome rfl).1; simp [oneIf]; omega
          by_cases hi : i = 0
          · simp [hi, hcond]
          · simp [hi]
        · simp only at hret ⊢
          omega
        · intro hs
          obtain ⟨hk1, hlt⟩ := hsome hs
          exact ⟨by omega, hlt⟩
        · rcases hbound with hb | hb
          · left; exact hb
          · left; simp only at hb; omega
    · rw [if_neg hrt] at h
      injection h with h1 h2
      subst h1; subst h2
      exact ⟨0, by simp [oneIf], by omega, by simp [oneIf], by simp [oneIf],
        by simp, Or.inr rfl, by omega⟩

lemma replicate_dropLast (k : Nat) (a : String) :
    (List.replicate k a).dropLast = List.replicate (k - 1) a := by
  cases k with
  | zero => rfl
  | succ k =>
    rw [List.replicate_succ']
    simp [List.dropLast_concat]

/-- Behaviour of the outer region loop: starting in state `st` it makes a
trace of calls `extra` bounded per region by `maxPerRegion` (for regions
listed once), appends to the failed list exactly the regions that had a
failing call, in order, and accounts `retry_time` for every call except a
final success. -/
lemma region_retry_loop_spec (invoke : String → Nat → Option Nat)
    (max_retry_time maxPerRegion : Nat) :
    ∀ (l : List String) (st st' : RetryState) (res : Option Nat),
      region_retry_loop invoke max_retry_time maxPerRegion l st = (st', res) →
      ∃ extra newFailed,
        st'.trace = st.trace ++ extra ∧
        st'.failed = st.failed ++ newFailed ∧
        st'.retry_time + oneIf res = st.retry_time + extra.length ∧
        (res.isSome = true → st'.retry_time < max_retry_time ∧ extra ≠ []) ∧
        (st'.retry_time ≤ max_retry_time ∨ st'.retry_time = st.retry_time) ∧
        (∀ r, extra.count r ≤ maxPerRegion * l.count r) ∧
        (∀ r, r ∈ newFailed ↔ r ∈ failedCallsOf extra res) ∧
        (l.Nodup → newFailed.Nodup ∧ newFailed.Sublist l) ∧
        (st.retry_time < max_retry_time → 1 ≤ maxPerRegion → l ≠ [] →
          res = none → newFailed ≠ []) := by
  intro l
  induction l with
  | nil =>
    intro st st' res h
    simp only [region_retry_loop] at h
    injection h with h1 h2
    subst h1; subst h2
    exact ⟨[], [], by simp, by simp, by simp [oneIf], by simp, Or.inr rfl,
      by simp, by simp [failedCallsOf], by simp, by simp⟩
  | cons region rest ih =>
    intro st st' res h
    rw [region_retry_loop] at h
    by_cases hrt : st.retry_time < max_retry_time
    · rw [if_pos hrt] at h
      rcases hone : one_region_retry invoke max_retry_time region maxPerRegion 0 st
        with ⟨st1, res1⟩
      rw [hone] at h
      obtain ⟨k, htr1, hk1, hfail1, hret1, hsome1, hbound1, hcall1⟩ :=
        one_region_retry_spec invoke max_retry_time region maxPerRegion 0 st st1 res1 hone
      cases res1 with
      | some response =>
        injection h with h1 h2
        subst h1; subst h2
        refine ⟨List.replicate k region,
          if 0 = 0 ∧ 1 ≤ k - oneIf (some response) then [region] else [],
          htr1, hfail1, ?_, ?_, ?_, ?_, ?_, ?_, ?_⟩
        · simpa using hret1
        · intro _
          refine ⟨(hsome1 rfl).2, ?_⟩
          have hk := (hsome1 rfl).1
          simp [List.replicate_succ, Nat.le_iff_lt_or_eq] at hk ⊢
          omega
        · exact hbound1
        · intro r
          rw [List.count_replicate]
          by_cases hr : region = r
          · subst hr
            have : (region :: rest).count region = rest.count region + 1 := by
              simp [List.count_cons]
            rw [this]
            simp only [beq_self_eq_true, if_true]
            calc k ≤ maxPerRegion := hk1
              _ ≤ maxPerRegion * (rest.count region + 1) := by
                  have : 1 ≤ rest.count region + 1 := by omega
                  calc maxPerRegion = maxPerRegion * 1 := by omega
                    _ ≤ maxPerRegion * (rest.count region + 1) :=
                        Nat.mul_le_mul_left _ this
          · simp [hr]
        · intro r
          simp only [failedCallsOf, replicate_dropLast, oneIf, Option.isSome_some,
            if_true, true_and]
          by_cases hc : 1 ≤ k - 1
          · simp only [if_pos hc, List.mem_singleton, List.mem_replicate]
            constructor
            · rintro rfl; exact ⟨by omega, rfl⟩
            · rintro ⟨-, rfl⟩; rfl
          · simp only [if_neg hc, List.not_mem_nil, List.mem_replicate, false_iff,
              not_and]
            intro hk0
            omega
        · intro _
          by_cases hc : 1 ≤ k - oneIf (some response)
          · simp only [true_and, if_pos hc]
            exact ⟨List.nodup_singleton region,
              List.Sublist.cons₂ region (List.nil_sublist rest)⟩
          · simp only [true_and, if_neg hc]
            exact ⟨List.nodup_nil, List.nil_sublist _⟩
        · intro _ _ _ hres
          cases hres
      | none =>
        obtain ⟨extra2, nf2, htr2, hfail2, hret2, hsome2, hbound2, hcount2, hmem2,
          hnodup2, hne2⟩ := ih st1 st' res h
        refine ⟨List.replicate k region ++ extra2,
          (if 1 ≤ k then [region] else []) ++ nf2, ?_, ?_, ?_, ?_, ?_, ?_, ?_, ?_, ?_⟩
        · rw [htr2, htr1, List.append_assoc]
        · rw [hfail2, hfail1]
          simp only [oneIf, Option.isSome_none, Bool.false_eq_true, if_false,
            Nat.sub_zero, true_and, List.append_assoc]
        · rw [List.length_append, List.length_replicate]
          simp only [oneIf, Option.isSome_none, Bool.false_eq_true, if_false,
            Nat.add_zero] at hret1
          omega
        · intro hs
          obtain ⟨hlt, hne⟩ := hsome2 hs
          exact ⟨hlt, by simp [hne]⟩
        · rcases hbound2 with hb | hb
          · left; exact hb
          · rw [hb]
            rcases hbound1 with hb1 | hb1
            · left; exact hb1
            · right; exact hb1
        · intro r
          rw [List.count_append, List.count_replicate]
          have hrest := hcount2 r
          by_cases hr : region = r
          · subst hr
            have : (region :: rest).count region = rest.count region + 1 := by
              simp [List.count_cons]
            rw [this, Nat.mul_add, Nat.mul_one]
            simp only [beq_self_eq_true, if_true]
            omega
          · have : (region :: rest).count r = rest.count r := by
              simp [List.count_cons, Ne.symm hr]
            rw [this]
            simp only [beq_iff_eq, hr, if_false, Nat.zero_add]
            exact hrest
        · intro r
          have hfc : failedCallsOf (List.replicate k region ++ extra2) res
              = List.replicate k region ++ failedCallsOf extra2 res := by
            refine failedCallsOf_append_left _ _ _ ?_
            intro hs
            exact (hsome2 hs).2
          rw [hfc]
          simp only [List.mem_append, hmem2 r, List.mem_replicate]
          by_cases hc : 1 ≤ k
          · simp only [if_pos hc, List.mem_singleton]
            constructor
            · rintro (rfl | hm)
              · exact Or.inl ⟨by omega, rfl⟩
              · exact Or.inr hm
            · rintro (⟨-, rfl⟩ | hm)
              · exact Or.inl rfl
              · exact Or.inr hm
          · simp only [if_neg hc, List.not_mem_nil, false_or]
            constructor
            · exact Or.inr
            · rintro (⟨hk0, rfl⟩ | hm)
              · omega
              · exact hm
        · intro hnd
          rw [List.nodup_cons] at hnd
          obtain ⟨hnotmem, hndrest⟩ := hnd
          obtain ⟨hnd2, hsub2⟩ := hnodup2 hndrest
          by_cases hc : 1 ≤ k
          · simp only [if_pos hc, List.singleton_append]
            constructor
            · rw [List.nodup_cons]
              exact ⟨fun hmem => hnotmem (hsub2.subset hmem), hnd2⟩
            · exact List.Sublist.cons₂ region hsub2
          · simp only [if_neg hc, List.nil_append]
            exact ⟨hnd2, List.Sublist.cons region hsub2⟩
        · intro hlt hper _ hres
          have hk := hcall1 hlt hper
          simp [if_pos hk]
    · rw [if_neg hrt] at h
      injection h with h1 h2
      subst h1; subst h2
      exact ⟨[], [], by simp, by simp, by simp [oneIf], by simp, Or.inr rfl, by simp,
        by simp [failedCallsOf], by simp, fun hlt => absurd hlt hrt⟩

lemma get_validate_regions_eq_filter_map (R : List RegionEntry) (t : Int) :
    get_validate_regions_from_conf R t
      = (R.filter (fun e => decide (e.next_available_time ≤ t))).map RegionEntry.region := by
  induction R with
  | nil => rfl
  | cons e rest ih =>
    by_cases he : e.next_available_time ≤ t
    · simp [get_validate_regions_from_conf, he, ih, List.filter_cons]
    · simp [get_validate_regions_from_conf, he, ih, List.filter_cons]

/-- C4: for every registry `R` and time `t`, `get_validate_regions_from_conf`
returns exactly the region identifiers of the entries of `R` with
`next_available_time <= t`, in the relative order of `R`; it is a total
function, and an empty registry or an all-expired registry yields `[]`. -/
theorem get_validate_regions_spec :
    ∀ (R : List RegionEntry) (t : Int),
      get_validate_regions_from_conf R t
        = (R.filter (fun e => decide (e.next_available_time ≤ t))).map RegionEntry.region
      ∧ get_validate_regions_from_conf ([] : List RegionEntry) t = []
      ∧ ((∀ e ∈ R, ¬ e.next_available_time ≤ t) →
          get_validate_regions_from_conf R t = []) := by
  intro R t
  refine ⟨get_validate_regions_eq_filter_map R t, rfl, ?_⟩
  intro hall
  rw [get_validate_regions_eq_filter_map]
  have : R.filter (fun e => decide (e.next_available_time ≤ t)) = [] := by
    rw [List.filter_eq_nil_iff]
    intro e he
    simpa using hall e he
  rw [this]
  rfl

/-- Closed witness for `get_validate_regions_spec`: a registry whose only
entry is still quarantined at time 5 filters to the empty list. -/
theorem get_validate_regions_spec_witness :
    get_validate_regions_from_conf [{ region := "A", next_available_time := 10 }] 5 = [] :=
  (get_validate_regions_spec [{ region := "A", next_available_time := 10 }] 5).2.2
    (by decide)

lemma disableLoop_eq_map (R : List RegionEntry) (F : List String) (ts : Int) :
    disableLoop R F ts
      = R.map (fun e =>
          if e.region ∈ F then { e with next_available_time := ts } else e) := by
  induction R with
  | nil => rfl
  | cons e rest ih => simp [disableLoop, ih]

/-- C5: the merge keeps exactly the entries of `R` in their order (same
length, same region sequence), every entry whose region is in `F` gets
`next_available_time = now + window`, and every other entry is returned
unchanged. -/
theorem disable_region_in_conf_spec :
    ∀ (R : List RegionEntry) (F : List String) (now window : Int),
      (disable_region_in_conf R F now window).length = R.length
      ∧ (disable_region_in_conf R F now window).map RegionEntry.region
          = R.map RegionEntry.region
      ∧ ∀ i : Nat, (disable_region_in_conf R F now window)[i]?
          = R[i]?.map (fun e =>
              if e.region ∈ F then { e with next_available_time := now + window }
              else e) := by
  intro R F now window
  rw [disable_region_in_conf, disableLoop_eq_map]
  refine ⟨List.length_map .., ?_, ?_⟩
  · rw [List.map_map]
    refine List.map_congr_left ?_
    intro e _
    by_cases he : e.region ∈ F
    · simp [he, Function.comp]
    · simp [he, Function.comp]
  · intro i
    rw [List.getElem?_map]

/-- C7: with an empty eligible region list the retry engine returns the
failure value immediately (lines 71-72), with the failed-regions list still
empty and zero invoker calls, for every invoker and every budget. -/
theorem retry_empty_eligible_no_calls :
    ∀ (invoke : String → Nat → Option Nat) (max_retry_time maxPerRegion : Nat),
      bedrock_invoke_model_message_with_retry invoke [] max_retry_time maxPerRegion []
        = ({ retry_time := 0, failed := [], trace := [] }, none) := by
  intro invoke max_retry_time maxPerRegion
  rfl

/-- C1: with eligible regions `["A", "B", "C"]`, global budget 5, per-region
budget 2, an invoker that fails every attempt on A and B and succeeds on the
attempt the engine makes to C (the fifth call, global index 4), the engine
calls the invoker exactly five times in the order A, A, B, B, C, returns the
invoker's successful response, and the failed-regions list (starting empty)
ends as exactly `["A", "B"]` in that insertion order. -/
theorem retry_three_regions_scenario (invoke : String → Nat → Option Nat)
    (hA : ∀ n, invoke "A" n = none) (hB : ∀ n, invoke "B" n = none)
    (hC : (invoke "C" 4).isSome = true) :
    bedrock_invoke_model_message_with_retry invoke ["A", "B", "C"] 5 2 []
      = ({ retry_time := 4, failed := ["A", "B"],
           trace := ["A", "A", "B", "B", "C"] }, invoke "C" 4)
    ∧ (bedrock_invoke_model_message_with_retry invoke ["A", "B", "C"] 5 2 []).2.isSome
        = true := by
  obtain ⟨r, hr⟩ := Option.isSome_iff_exists.mp hC
  have key : bedrock_invoke_model_message_with_retry invoke ["A", "B", "C"] 5 2 []
      = ({ retry_time := 4, failed := ["A", "B"],
           trace := ["A", "A", "B", "B", "C"] }, some r) := by
    simp [bedrock_invoke_model_message_with_retry, region_retry_loop,
      one_region_retry, hA 0, hA 1, hB 2, hB 3, hr]
  refine ⟨?_, by rw [key]; rfl⟩
  rw [key, hr]

/-- Invoker for the closed witnesses: fails every attempt on every region
except "C", where every attempt succeeds. -/
def scenarioInvoker : String → Nat → Option Nat :=
  fun region_name _ => if region_name = "C" then some 0 else none

/-- Closed witness for `retry_three_regions_scenario` at a concrete invoker. -/
theorem retry_three_regions_scenario_witness :
    bedrock_invoke_model_message_with_retry scenarioInvoker ["A", "B", "C"] 5 2 []
      = ({ retry_time := 4, failed := ["A", "B"],
           trace := ["A", "A", "B", "B", "C"] }, scenarioInvoker "C" 4)
    ∧ (bedrock_invoke_model_message_with_retry scenarioInvoker ["A", "B", "C"] 5 2 []).2.isSome
        = true :=
  retry_three_regions_scenario scenarioInvoker (fun _ => rfl) (fun _ => rfl) rfl

/-- C9: with multi-region retry disabled the effective per-region budget is
forced equal to the global budget (for every configured value), and then with
two eligible regions, global budget 3 and an always-failing invoker the
invoker is called exactly three times, all against the first region; the
second region is never attempted and the engine returns the failure value. -/
theorem multi_region_retry_disabled_spec :
    (∀ max_retry_time configured : Nat,
      effective_max_retry_times_for_each_region false max_retry_time configured
        = max_retry_time)
    ∧ ∀ (invoke : String → Nat → Option Nat) (r1 r2 : String),
        (∀ r n, invoke r n = none) → r1 ≠ r2 →
        bedrock_invoke_model_message_with_retry invoke [r1, r2] 3
            (effective_max_retry_times_for_each_region false 3 2) []
          = ({ retry_time := 3, failed := [r1], trace := [r1, r1, r1] }, none)
        ∧ r2 ∉ (bedrock_invoke_model_message_with_retry invoke [r1, r2] 3
            (effective_max_retry_times_for_each_region false 3 2) []).1.trace := by
  refine ⟨fun _ _ => rfl, ?_⟩
  intro invoke r1 r2 hf hne
  have key : bedrock_invoke_model_message_with_retry invoke [r1, r2] 3
      (effective_max_retry_times_for_each_region false 3 2) []
      = ({ retry_time := 3, failed := [r1], trace := [r1, r1, r1] }, none) := by
    simp [bedrock_invoke_model_message_with_retry, region_retry_loop,
      one_region_retry, effective_max_retry_times_for_each_region, hf]
  refine ⟨key, ?_⟩
  rw [key]
  simp [Ne.symm hne]

/-- Closed witness for `multi_region_retry_disabled_spec` at a concrete
always-failing invoker and regions "A", "B". -/
theorem multi_region_retry_disabled_witness :
    bedrock_invoke_model_message_with_retry alwaysFailInvoker ["A", "B"] 3
        (effective_max_retry_times_for_each_region false 3 2) []
      = ({ retry_time := 3, failed := ["A"], trace := ["A", "A", "A"] }, none)
    ∧ "B" ∉ (bedrock_invoke_model_message_with_retry alwaysFailInvoker ["A", "B"] 3
        (effective_max_retry_times_for_each_region false 3 2) []).1.trace :=
  multi_region_retry_disabled_spec.2 alwaysFailInvoker "A" "B" (fun _ _ => rfl)
    (by decide)

/-- C2: for every eligible region list (region identifiers listed once),
every invoker and every positive budget pair, one engine call makes at most
`max_retry_time` invoker calls in total and at most `maxPerRegion` calls
against any single region; and concretely, with global budget 3, per-region
budget 2 and two always-failing regions the invoker is called exactly three
times (A, A, B), the engine returns the failure value, and both regions end
up in the failed-regions list. -/
theorem retry_budget_invariant :
    (∀ (invoke : String → Nat → Option Nat) (regions : List String)
        (max_retry_time maxPerRegion : Nat) (failed0 : List String),
        0 < max_retry_time → 0 < maxPerRegion → regions.Nodup →
        (bedrock_invoke_model_message_with_retry invoke regions max_retry_time
            maxPerRegion failed0).1.trace.length ≤ max_retry_time
        ∧ ∀ r, (bedrock_invoke_model_message_with_retry invoke regions max_retry_time
            maxPerRegion failed0).1.trace.count r ≤ maxPerRegion)
    ∧ bedrock_invoke_model_message_with_retry alwaysFailInvoker ["A", "B"] 3 2 []
        = ({ retry_time := 3, failed := ["A", "B"], trace := ["A", "A", "B"] }, none) := by
  constructor
  · intro invoke regions g p f0 hg hp hnd
    by_cases hnil : regions.length = 0
    · obtain rfl := List.length_eq_zero.mp hnil
      constructor
      · simp [bedrock_invoke_model_message_with_retry]
      · intro r; simp [bedrock_invoke_model_message_with_retry]
    · rw [bedrock_invoke_model_message_with_retry, if_neg hnil]
      rcases hrun : region_retry_loop invoke g p regions
          { retry_time := 0, failed := f0, trace := [] } with ⟨st', res⟩
      obtain ⟨extra, nf, htr, hfail, hret, hsome, hbound, hcount, hmem, hnodup, hne⟩ :=
        region_retry_loop_spec invoke g p regions _ st' res hrun
      simp only at htr hret hbound
      constructor
      · rw [htr, List.nil_append]
        cases res with
        | none =>
          simp only [oneIf, Option.isSome_none, Bool.false_eq_true, if_false,
            Nat.add_zero, Nat.zero_add] at hret
          omega
        | some r0 =>
          simp only [oneIf, Option.isSome_some, if_true, Nat.zero_add] at hret
          have := (hsome rfl).1
          omega
      · intro r
        rw [htr, List.nil_append]
        have hc1 : regions.count r ≤ 1 := List.nodup_iff_count_le_one.mp hnd r
        calc extra.count r ≤ p * regions.count r := hcount r
          _ ≤ p * 1 := Nat.mul_le_mul_left _ hc1
          _ = p := Nat.mul_one p
  · decide

/-- Closed witness for `retry_budget_invariant` at the always-failing
invoker, regions `["A", "B"]`, global budget 3, per-region budget 2. -/
theorem retry_budget_invariant_witness :
    (bedrock_invoke_model_message_with_retry alwaysFailInvoker ["A", "B"] 3 2
        []).1.trace.length ≤ 3
    ∧ ∀ r, (bedrock_invoke_model_message_with_retry alwaysFailInvoker ["A", "B"] 3 2
        []).1.trace.count r ≤ 2 :=
  retry_budget_invariant.1 alwaysFailInvoker ["A", "B"] 3 2 [] (by decide) (by decide)
    (by decide)

/-- C3 counterexample: the source keeps `failed_regions` as a process-global
list (line 27) that is never reset between engine calls, so a call that
starts after an earlier call left "X" in the list yields a failed-regions
list containing "X" even though this call never attempted (let alone failed
on) region "X": here the single eligible region "B" succeeds immediately,
the call trace is exactly ["B"], yet "X" is in the resulting list. -/
theorem failed_regions_cross_call_contamination :
    "X" ∈ (bedrock_invoke_model_message_with_retry (fun _ _ => some 0) ["B"] 5 2
        ["X"]).1.failed
    ∧ "X" ∉ (bedrock_invoke_model_message_with_retry (fun _ _ => some 0) ["B"] 5 2
        ["X"]).1.trace := by
  decide

/-- C3 (amended): one engine call appends to the pre-existing failed-regions
list exactly the regions that produced at least one failed attempt during
that call — each such region once, in the order of its first failure (a
subsequence of the eligible list, whose order is the first-failure order);
the list the call yields is the pre-call content followed by those regions,
so it reflects earlier calls of the same process as well. -/
theorem failed_regions_per_call_spec :
    ∀ (invoke : String → Nat → Option Nat) (regions : List String)
      (max_retry_time maxPerRegion : Nat) (failed0 : List String),
      regions.Nodup →
      ∃ newFailed,
        (bedrock_invoke_model_message_with_retry invoke regions max_retry_time
            maxPerRegion failed0).1.failed = failed0 ++ newFailed
        ∧ (∀ r, r ∈ newFailed ↔
            r ∈ failedCallsOf
              (bedrock_invoke_model_message_with_retry invoke regions max_retry_time
                maxPerRegion failed0).1.trace
              (bedrock_invoke_model_message_with_retry invoke regions max_retry_time
                maxPerRegion failed0).2)
        ∧ newFailed.Nodup ∧ newFailed.Sublist regions := by
  intro invoke regions g p f0 hnd
  by_cases hnil : regions.length = 0
  · obtain rfl := List.length_eq_zero.mp hnil
    refine ⟨[], by simp [bedrock_invoke_model_message_with_retry], ?_,
      List.nodup_nil, List.nil_sublist _⟩
    intro r
    simp [bedrock_invoke_model_message_with_retry, failedCallsOf]
  · rw [bedrock_invoke_model_message_with_retry, if_neg hnil]
    rcases hrun : region_retry_loop invoke g p regions
        { retry_time := 0, failed := f0, trace := [] } with ⟨st', res⟩
    obtain ⟨extra, nf, htr, hfail, hret, hsome, hbound, hcount, hmem, hnodup, hne⟩ :=
      region_retry_loop_spec invoke g p regions _ st' res hrun
    simp only at htr hfail
    rw [List.nil_append] at htr
    refine ⟨nf, hfail, ?_, hnodup hnd⟩
    intro r
    rw [htr]
    exact hmem r

/-- Closed witness for `failed_regions_per_call_spec` at a concrete run:
single always-failing region "A", both budgets 1, empty initial list. -/
theorem failed_regions_per_call_spec_witness :
    ∃ newFailed,
      (bedrock_invoke_model_message_with_retry alwaysFailInvoker ["A"] 1 1
          []).1.failed = [] ++ newFailed
      ∧ (∀ r, r ∈ newFailed ↔
          r ∈ failedCallsOf
            (bedrock_invoke_model_message_with_retry alwaysFailInvoker ["A"] 1 1
              []).1.trace
            (bedrock_invoke_model_message_with_retry alwaysFailInvoker ["A"] 1 1
              []).2)
      ∧ newFailed.Nodup ∧ newFailed.Sublist ["A"] :=
  failed_regions_per_call_spec alwaysFailInvoker ["A"] 1 1 [] (by decide)

/-- C8 counterexample: the two failure conditions are not distinguishable in
the value the engine returns — both the empty-eligible-list return (line 72)
and the budget-exhausted return (line 115) are the same value `False`
(`none` here), so there is no empty-eligible input and failing
exhausted-budget input whose returned outcomes differ. -/
theorem retry_failure_outcomes_not_distinguishable :
    ¬ ∃ (invoke1 invoke2 : String → Nat → Option Nat)
        (g1 p1 g2 p2 : Nat) (f1 f2 regions : List String),
        regions ≠ []
        ∧ (bedrock_invoke_model_message_with_retry invoke2 regions g2 p2 f2).2 = none
        ∧ (bedrock_invoke_model_message_with_retry invoke1 [] g1 p1 f1).2
            ≠ (bedrock_invoke_model_message_with_retry invoke2 regions g2 p2 f2).2 := by
  rintro ⟨invoke1, invoke2, g1, p1, g2, p2, f1, f2, regions, -, hnone, hdiff⟩
  apply hdiff
  rw [hnone]
  rfl

/-- C8 (amended): both failure conditions return the same value `False`
(`none`); they are distinguishable only through the failed-regions list the
call leaves behind: an empty eligible list leaves it empty (no attempt is
made), while a failing call over a non-empty eligible list with positive
budgets always leaves a non-empty failed-regions list. -/
theorem retry_failure_outcomes_amended :
    ∀ (invoke : String → Nat → Option Nat) (regions : List String)
      (max_retry_time maxPerRegion : Nat),
      0 < max_retry_time → 0 < maxPerRegion → regions ≠ [] →
      (bedrock_invoke_model_message_with_retry invoke [] max_retry_time
          maxPerRegion []).2 = none
      ∧ (bedrock_invoke_model_message_with_retry invoke [] max_retry_time
          maxPerRegion []).1.failed = []
      ∧ ((bedrock_invoke_model_message_with_retry invoke regions max_retry_time
            maxPerRegion []).2 = none →
          (bedrock_invoke_model_message_with_retry invoke regions max_retry_time
            maxPerRegion []).1.failed ≠ []) := by
  intro invoke regions g p hg hp hnonempty
  refine ⟨rfl, rfl, ?_⟩
  intro hres
  have hnil : ¬ regions.length = 0 := by
    intro h0
    exact hnonempty (List.length_eq_zero.mp h0)
  rw [bedrock_invoke_model_message_with_retry, if_neg hnil] at hres ⊢
  rcases hrun : region_retry_loop invoke g p regions
      { retry_time := 0, failed := [], trace := [] } with ⟨st', res⟩
  obtain ⟨extra, nf, htr, hfail, hret, hsome, hbound, hcount, hmem, hnodup, hne⟩ :=
    region_retry_loop_spec invoke g p regions _ st' res hrun
  rw [hrun] at hres
  replace hres : res = none := hres
  have hnf : nf ≠ [] := hne (by simpa using hg) hp hnonempty hres
  simp only at hfail
  rw [hfail, List.nil_append]
  exact hnf

/-- Closed witness for `retry_failure_outcomes_amended` at the always-failing
invoker, one region, both budgets 1. -/
theorem retry_failure_outcomes_amended_witness :
    (bedrock_invoke_model_message_with_retry alwaysFailInvoker [] 1 1 []).2 = none
    ∧ (bedrock_invoke_model_message_with_retry alwaysFailInvoker [] 1 1 []).1.failed = []
    ∧ ((bedrock_invoke_model_message_with_retry alwaysFailInvoker ["A"] 1 1 []).2 = none →
        (bedrock_invoke_model_message_with_retry alwaysFailInvoker ["A"] 1 1
          []).1.failed ≠ []) :=
  retry_failure_outcomes_amended alwaysFailInvoker ["A"] 1 1 (by decide) (by decide)
    (by decide)

/-- Embeds the loop of lines 132-134 at the level Python executes it:
`raw_region_configs` (from `json.loads`, line 176) is a list of references
to dict objects, and `region_data['next_available_time'] = next_timestamp`
(line 134) mutates the referenced dict in place.  References are modelled as
naturals, the object store as a function from references to entries. -/
def disableHeapLoop : List Nat → (Nat → RegionEntry) → List String → Int →
    (Nat → RegionEntry)
  | [], h, _, _ => h
  | ref :: rest, h, disable_regions, next_timestamp =>
    disableHeapLoop rest
      (if (h ref).region ∈ disable_regions then
        fun n =>
          if n = ref then { h ref with next_available_time := next_timestamp }
          else h n
      else h)
      disable_regions next_timestamp

/-- Embeds `disable_region_in_conf` (lines 118-136) at the reference level:
the call updates entries through the caller's references (line 134) and
returns the caller's own list of references (line 136 returns
`raw_region_configs` itself, no copy is made). -/
def disable_region_in_conf_inplace (h : Nat → RegionEntry)
    (raw_region_configs : List Nat) (disable_regions : List String)
    (current_time window : Int) : (Nat → RegionEntry) × List Nat :=
  (disableHeapLoop raw_region_configs h disable_regions (current_time + window),
   raw_region_configs)

lemma disableHeapLoop_spec (ds : List String) (ts : Int) :
    ∀ (refs : List Nat) (h : Nat → RegionEntry) (n : Nat),
      disableHeapLoop refs h ds ts n
        = if n ∈ refs ∧ (h n).region ∈ ds then
            { h n with next_available_time := ts }
          else h n := by
  intro refs
  induction refs with
  | nil =>
    intro h n
    simp [disableHeapLoop]
  | cons ref rest ih =>
    intro h n
    rw [disableHeapLoop]
    by_cases hreg : (h ref).region ∈ ds
    · rw [if_pos hreg, ih]
      by_cases hn : n = ref
      · subst hn
        by_cases hmem : n ∈ rest
        · simp [hmem, hreg]
        · simp [hmem, hreg]
      · simp [hn, List.mem_cons]
    · rw [if_neg hreg, ih]
      by_cases hn : n = ref
      · subst hn
        simp [hreg, List.mem_cons]
      · simp [hn, List.mem_cons]

/-- Heap for the C6 counterexample: every reference points to the dict
`{'region': 'A', 'next_available_time': 0}`. -/
def exampleRegionHeap : Nat → RegionEntry :=
  fun _ => { region := "A", next_available_time := 0 }

/-- C6 counterexample: `disable_region_in_conf` is not pure — at the concrete
input (registry of one entry for region "A" with timestamp 0, failed set
{"A"}, now 10, window 5) the call mutates the entry the caller's registry
references (its timestamp becomes 15), and it hands back the caller's own
reference list rather than a new registry. -/
theorem disable_region_mutates_caller_registry :
    (disable_region_in_conf_inplace exampleRegionHeap [0] ["A"] 10 5).1 0
      ≠ exampleRegionHeap 0
    ∧ (disable_region_in_conf_inplace exampleRegionHeap [0] ["A"] 10 5).2 = [0] := by
  constructor
  · decide
  · rfl

/-- C6 (amended): `disable_region_in_conf` mutates the caller's registry in
place and returns the caller's reference list itself; after the call, every
entry referenced by the list whose region is in the failed set carries
`next_available_time = now + window`, and every other object of the store is
unchanged. -/
theorem disable_region_in_conf_inplace_spec :
    ∀ (h : Nat → RegionEntry) (refs : List Nat) (disable_regions : List String)
      (current_time window : Int) (n : Nat),
      (disable_region_in_conf_inplace h refs disable_regions current_time
          window).2 = refs
      ∧ (disable_region_in_conf_inplace h refs disable_regions current_time
          window).1 n
        = if n ∈ refs ∧ (h n).region ∈ disable_regions then
            { h n with next_available_time := current_time + window }
          else h n := by
  intro h refs ds current_time window n
  exact ⟨rfl, disableHeapLoop_spec ds (current_time + window) refs h n⟩

/-- Steps of `write_json_to_file_with_lock` (lines 150-155), one per source
operation: `open(file_path, 'w')` (line 151), `fcntl.flock(f, LOCK_EX)`
(line 152), `f.write(json_data)` (line 153), `f.flush()` (line 154),
`fcntl.flock(f, LOCK_UN)` (line 155), and closing the `with` block. -/
inductive WriterStep where
  | wOpen
  | wLock
  | wWrite
  | wFlush
  | wUnlock
  | wClose
deriving Repr, DecidableEq

/-- Program every writer executes, in source order (lines 151-155 plus the
`with`-block close). -/
def writerProgram : List WriterStep :=
  [.wOpen, .wLock, .wWrite, .wFlush, .wUnlock, .wClose]

/-- Shared state of two concurrent `write_json_to_file_with_lock` calls
against the same path: the current byte content of the file, the holder of
the `fcntl` exclusive lock, and each writer's program counter. -/
structure FileState where
  contents : List Char
  lockHolder : Option Bool
  pcFalse : Nat
  pcTrue : Nat
deriving Repr, DecidableEq

/-- Program counter of writer `w`. -/
def pcOf (s : FileState) (w : Bool) : Nat :=
  if w then s.pcTrue else s.pcFalse

/-- Sets writer `w`'s program counter. -/
def withPc (s : FileState) (w : Bool) (k : Nat) : FileState :=
  if w then { s with pcTrue := k } else { s with pcFalse := k }

/-- One atomic step of writer `w`, with POSIX semantics of the source's
calls: `open(file_path, 'w')` truncates the file immediately and is executed
before the lock is acquired (line 151 precedes line 152); `flock(LOCK_EX)`
blocks (no state change, program counter stays) while the other writer holds
the lock; `write` fills the userspace buffer (not yet visible); `flush`
makes the payload visible, overwriting the file's bytes from this handle's
offset 0 and leaving any bytes of a longer existing content beyond the
payload's length in place; `flock(LOCK_UN)` releases the lock. -/
def writerStep (payloads : Bool → List Char) (s : FileState) (w : Bool) :
    FileState :=
  match writerProgram[pcOf s w]? with
  | none => s
  | some WriterStep.wOpen => withPc { s with contents := [] } w (pcOf s w + 1)
  | some WriterStep.wLock =>
    if s.lockHolder = none then
      withPc { s with lockHolder := some w } w (pcOf s w + 1)
    else s
  | some WriterStep.wWrite => withPc s w (pcOf s w + 1)
  | some WriterStep.wFlush =>
    withPc { s with contents := payloads w ++ s.contents.drop (payloads w).length }
      w (pcOf s w + 1)
  | some WriterStep.wUnlock => withPc { s with lockHolder := none } w (pcOf s w + 1)
  | some WriterStep.wClose => withPc s w (pcOf s w + 1)

/-- Runs two concurrent writers under the interleaving `sched` (each list
element names the writer that takes the next atomic step), starting from an
initially empty file and no lock held; the initial content is irrelevant
because each writer truncates the file when it opens it. -/
def initialFileState : FileState :=
  { contents := [], lockHolder := none, pcFalse := 0, pcTrue := 0 }

def runWriters (payloads : Bool → List Char) (sched : List Bool) : FileState :=
  sched.foldl (writerStep payloads) initialFileState

/-- Modelled from the spec: a necessary structural condition for a payload to
parse as a well-formed collection of RegionEntry records ("a UTF-8 text
payload holding a structured collection of records"; the source parses it
with the external `json.loads`, which is not part of this repository):
brackets and braces outside string literals must nest properly and every
string literal must be closed.  The scanner tracks nesting depth, whether it
is inside a string literal, and a pending backslash escape; character codes
34, 91, 92, 93, 123 and 125 are the quote, the square brackets, the
backslash and the curly braces. -/
def jsonScan : List Char → Nat → Bool → Bool → Bool
  | [], depth, inString, _ => depth == 0 && !inString
  | c :: rest, depth, inString, escaped =>
    if inString then
      if escaped then jsonScan rest depth true false
      else if c.toNat == 92 then jsonScan rest depth true true
      else if c.toNat == 34 then jsonScan rest depth false false
      else jsonScan rest depth true false
    else if c.toNat == 34 then jsonScan rest depth true false
    else if c.toNat == 91 || c.toNat == 123 then jsonScan rest (depth + 1) false false
    else if c.toNat == 93 || c.toNat == 125 then
      match depth with
      | 0 => false
      | d + 1 => jsonScan rest d false false
    else jsonScan rest depth false false

/-- Payload shape check at depth 0, outside any string. -/
def jsonShapeOk (payload : List Char) : Bool :=
  jsonScan payload 0 false false

/-- Serialized registry `[{'region': 'A', 'next_available_time': 100}]` as
produced by `json.dumps` (line 148). -/
def payloadA : String :=
  "[\x7b\"region\": \"A\", \"next_available_time\": 100\x7d]"

/-- Serialized registry `[{'region': 'B', 'next_available_time': 2}]` as
produced by `json.dumps` (line 148); two bytes shorter than `payloadA`. -/
def payloadB : String :=
  "[\x7b\"region\": \"B\", \"next_available_time\": 2\x7d]"

/-- Writer `false` writes the longer `payloadA`, writer `true` the shorter
`payloadB`. -/
def tornWriterPayloads : Bool → List Char :=
  fun w => if w then payloadB.toList else payloadA.toList

/-- Interleaving exhibiting the torn write: both writers open (and truncate)
the file, then writer `false` completes its whole locked write, then writer
`true` completes its whole locked write.  The lock is never contended, yet
writer `true`'s handle was opened before writer `false` flushed, so its
flush overwrites only the first part of `payloadA`. -/
def tornSchedule : List Bool :=
  [false, true, false, false, false, false, false, true, true, true, true, true]

/-- C10: evaluation of the two concurrent writers at the torn interleaving.
Both writers run to completion (program counters at the program's end), the
lock is free again, each writer's own payload is structurally well formed,
but the stored payload afterwards is `payloadB` followed by the trailing
bytes of `payloadA` — a mixture that fails the structural well-formedness
check, so it cannot parse as a collection of RegionEntry records. -/
theorem concurrent_writers_torn_payload :
    (runWriters tornWriterPayloads tornSchedule).pcFalse = 6
    ∧ (runWriters tornWriterPayloads tornSchedule).pcTrue = 6
    ∧ (runWriters tornWriterPayloads tornSchedule).lockHolder = none
    ∧ jsonShapeOk payloadA.toList = true
    ∧ jsonShapeOk payloadB.toList = true
    ∧ (runWriters tornWriterPayloads tornSchedule).contents
        = payloadB.toList ++ payloadA.toList.drop payloadB.toList.length
    ∧ jsonShapeOk (runWriters tornWriterPayloads tornSchedule).contents = false := by
  decide
